import Mathlib

/-!
Verification of the tetsuo/mp4 remuxer core against its specification.

The Go source is shallowly embedded:
* `remux.Sample`, `remux.Track` become Lean structures with `Int` standing in
  for `int64`/`int32` fields and `Nat` for `uint32` fields; explicit reduction
  `% 2 ^ 32` is applied exactly where the Go code performs a machine
  conversion such as `uint32(x)`.
* `buildSampleTable`'s loop becomes a structural recursion over the remaining
  sample count; a Go index-out-of-range panic is modelled as the distinguished
  result `BuildResult.panicked`, and each `fmt.Errorf` return for a missing
  table as `BuildResult.missing`.
* the byte-building writers (`writeMoof` in the remux package, the typed box
  writers of the bmff package) become functions producing `List Nat` of byte
  values, mirroring each `PutUint32`/`putUint64` call in order.
* the bmff `Scanner` over an `io.ReadSeeker` is modelled as a state machine
  over a finite byte list with a read cursor; `io.ReadFull` short reads are
  modelled by comparing the remaining length with the requested length.
-/

namespace Mp4Spec

/-- One decoded sample, mirroring `remux.Sample`
(`Offset int64`, `Size uint32`, `Duration uint32`, `DTS int64`,
`PresentationOffset int32`, `Sync bool`). -/
structure Sample where
  offset : Int
  size : Nat
  duration : Nat
  dts : Int
  presentationOffset : Int
  sync : Bool
  deriving Repr, DecidableEq, Inhabited

/-- A time-to-sample entry, mirroring `mp4.STTSEntry` (`Count`, `Duration`). -/
structure SttsEntry where
  count : Nat
  duration : Nat
  deriving Repr, DecidableEq, Inhabited

/-- A composition-offset entry, mirroring `mp4.CTTSEntry`
(`Count uint32`, `CompositionOffset int32`). -/
structure CttsEntry where
  count : Nat
  compositionOffset : Int
  deriving Repr, DecidableEq, Inhabited

/-- A sample-to-chunk entry, mirroring `mp4.STSCEntry`
(`FirstChunk`, `SamplesPerChunk`, `SampleDescriptionId`). -/
structure StscEntry where
  firstChunk : Nat
  samplesPerChunk : Nat
  sampleDescriptionId : Nat
  deriving Repr, DecidableEq, Inhabited

/-- The mutable cursor state of `buildSampleTable`'s forward pass. -/
structure BuildSt where
  sampleInChunk : Nat
  chunk : Nat
  offsetInChunk : Int
  stscIdx : Nat
  dts : Int
  decIdx : Nat
  decOff : Nat
  cttsIdx : Nat
  cttsOff : Nat
  syncIdx : Nat
  deriving Repr, DecidableEq, Inhabited

/-- Initial cursor state (all Go zero values). -/
def BuildSt.init : BuildSt := ⟨0, 0, 0, 0, 0, 0, 0, 0, 0, 0⟩

/-- Cursor advance between two samples, mirroring the tail of the loop body of
`buildSampleTable` ("Advance chunk position" through "Advance sync index").
`ce` is the current `stsc` entry, `de` the current `stts` entry, `size` the
current sample's size and `sync` its sync flag. -/
def advanceSt (stsc : List StscEntry) (ctts : Option (List CttsEntry))
    (st : BuildSt) (ce : StscEntry) (de : SttsEntry) (size : Nat) (sync : Bool) :
    BuildSt :=
  let sic := st.sampleInChunk + 1
  let oic := st.offsetInChunk + (size : Int)
  let chunkPart : Nat × Int × Nat × Nat :=
    if sic ≥ ce.samplesPerChunk then
      let chunk' := st.chunk + 1
      let stscIdx' :=
        match stsc[st.stscIdx + 1]? with
        | some ne => if (chunk' + 1) % 2 ^ 32 ≥ ne.firstChunk then st.stscIdx + 1 else st.stscIdx
        | none => st.stscIdx
      (0, 0, chunk', stscIdx')
    else (sic, oic, st.chunk, st.stscIdx)
  let dts' := st.dts + (de.duration : Int)
  let decPart : Nat × Nat :=
    if st.decOff + 1 ≥ de.count then (st.decIdx + 1, 0) else (st.decIdx, st.decOff + 1)
  let cttsPart : Nat × Nat :=
    match ctts with
    | none => (st.cttsIdx, st.cttsOff)
    | some cl =>
      match cl[st.cttsIdx]? with
      | some e => if st.cttsOff + 1 ≥ e.count then (st.cttsIdx + 1, 0) else (st.cttsIdx, st.cttsOff + 1)
      | none => (st.cttsIdx, st.cttsOff + 1)
  let syncIdx' := if sync then st.syncIdx + 1 else st.syncIdx
  { sampleInChunk := chunkPart.1
    chunk := chunkPart.2.2.1
    offsetInChunk := chunkPart.2.1
    stscIdx := chunkPart.2.2.2
    dts := dts'
    decIdx := decPart.1
    decOff := decPart.2
    cttsIdx := cttsPart.1
    cttsOff := cttsPart.2
    syncIdx := syncIdx' }

/-- The sync flag of sample `i` (0-based), mirroring
`sync = syncIdx < len(syncEntries) && syncEntries[syncIdx] == uint32(i+1)`
with the all-sync default when `stss` is absent. -/
def syncFlag (stss : Option (List Nat)) (syncIdx : Nat) (i : Nat) : Bool :=
  match stss with
  | none => true
  | some es =>
    match es[syncIdx]? with
    | some v => v == (i + 1) % 2 ^ 32
    | none => false

/-- The presentation offset of the current sample, mirroring
`if cttsEntries != nil && cttsIdx < len(cttsEntries)`. -/
def cttsOffsetAt (ctts : Option (List CttsEntry)) (cttsIdx : Nat) : Int :=
  match ctts with
  | none => 0
  | some cl =>
    match cl[cttsIdx]? with
    | some e => e.compositionOffset
    | none => 0

/-- The main loop of `buildSampleTable`, recursing on the number of samples
still to emit (`rem = numSamples - i`).  `none` models a Go index
out-of-range panic (`stscEntries[sampleToChunkIndex]`,
`sttsEntries[decodingIdx]`, `chunkOffsets[chunk]` or `stsz` indexing).
On success returns the emitted samples together with the last-seen
`SampleDescriptionId`. -/
def buildLoop (stsz : List Nat) (stts : List SttsEntry) (stsc : List StscEntry)
    (chunkOffsets : List Int) (ctts : Option (List CttsEntry))
    (stss : Option (List Nat)) : Nat → Nat → BuildSt → Option (List Sample × Nat)
  | _, 0, _ => some ([], 0)
  | i, rem + 1, st =>
    match stsc[st.stscIdx]?, stsz[i]?, stts[st.decIdx]?, chunkOffsets[st.chunk]? with
    | some ce, some size, some de, some chunkOff =>
      let po := cttsOffsetAt ctts st.cttsIdx
      let sync := syncFlag stss st.syncIdx i
      let s : Sample :=
        { offset := st.offsetInChunk + chunkOff
          size := size
          duration := de.duration
          dts := st.dts
          presentationOffset := po
          sync := sync }
      if rem = 0 then some ([s], ce.sampleDescriptionId)
      else
        match buildLoop stsz stts stsc chunkOffsets ctts stss (i + 1) rem
            (advanceSt stsc ctts st ce de size sync) with
        | some (l, d) => some (s :: l, d)
        | none => none
    | _, _, _, _ => none

/-- Result of the sample-table build: a successful dense array, an error
return (`fmt.Errorf` for a missing required table), or a Go runtime panic
(index out of range in the forward pass). -/
inductive BuildResult where
  | ok (samples : List Sample) (defaultSdi : Nat)
  | missing (what : String)
  | panicked
  deriving Repr, DecidableEq

/-- Reinterpretation of a `uint64` chunk offset as `int64`, mirroring
`int64(v)` in the `co64` branch of `buildSampleTable`. -/
def i64ofU64 (v : Nat) : Int :=
  if v < 2 ^ 63 then (v : Int) else (v : Int) - 2 ^ 64

/-- The chunk-offset table selection of `buildSampleTable`: `co64` takes
precedence, else `stco`, else the table is missing. -/
def chunkOffsetTable (co64 : Option (List Nat)) (stco : Option (List Nat)) :
    Option (List Int) :=
  match co64 with
  | some l => some (l.map i64ofU64)
  | none =>
    match stco with
    | some l => some (l.map fun v => (v : Int))
    | none => none

/-- `buildSampleTable` (remux package): fuses the sparse `stbl` tables into a
dense sample array.  Each table is passed as `none` when the corresponding box
is absent from the `stbl`. -/
def buildSampleTable (stsz : Option (List Nat)) (stts : Option (List SttsEntry))
    (stsc : Option (List StscEntry)) (co64 : Option (List Nat))
    (stco : Option (List Nat)) (ctts : Option (List CttsEntry))
    (stss : Option (List Nat)) : BuildResult :=
  match stsz with
  | none => .missing "stsz"
  | some sz =>
    match stts with
    | none => .missing "stts"
    | some tt =>
      match stsc with
      | none => .missing "stsc"
      | some sc =>
        match chunkOffsetTable co64 stco with
        | none => .missing "stco/co64"
        | some cos =>
          match buildLoop sz tt sc cos ctts stss 0 sz.length BuildSt.init with
          | some (l, d) => .ok l d
          | none => .panicked

end Mp4Spec

namespace Mp4Spec

/-! ### C1: decode-order chaining of DTS -/

theorem advanceSt_dts (stsc : List StscEntry) (ctts : Option (List CttsEntry))
    (st : BuildSt) (ce : StscEntry) (de : SttsEntry) (size : Nat) (sync : Bool) :
    (advanceSt stsc ctts st ce de size sync).dts = st.dts + (de.duration : Int) := rfl

/-- Every successful run of the build loop emits samples whose first DTS is
the cursor's DTS and whose DTS values chain by duration. -/
theorem buildLoop_dts_chain (sz : List Nat) (tt : List SttsEntry) (sc : List StscEntry)
    (cos : List Int) (ctts : Option (List CttsEntry)) (stss : Option (List Nat)) :
    ∀ (rem i : Nat) (st : BuildSt) (l : List Sample) (d : Nat),
      buildLoop sz tt sc cos ctts stss i rem st = some (l, d) →
      (∀ a, l.head? = some a → a.dts = st.dts) ∧
        List.Chain' (fun a b => a.dts + (a.duration : Int) = b.dts) l := by
  intro rem
  induction rem with
  | zero =>
    intro i st l d h
    simp only [buildLoop, Option.some.injEq, Prod.mk.injEq] at h
    obtain ⟨h1, _⟩ := h
    subst h1
    simp
  | succ rem ih =>
    intro i st l d h
    simp only [buildLoop] at h
    split at h
    case h_2 => exact absurd h (by simp)
    case h_1 ce size de chunkOff hce hsize hde hco =>
      split at h
      case isTrue hrem =>
        simp only [Option.some.injEq, Prod.mk.injEq] at h
        obtain ⟨h1, _⟩ := h
        subst h1
        refine ⟨?_, by simp⟩
        intro a ha
        simp only [List.head?_cons, Option.some.injEq] at ha
        subst ha
        rfl
      case isFalse hrem =>
        split at h
        case h_2 => exact absurd h (by simp)
        case h_1 l' d' hrec =>
          simp only [Option.some.injEq, Prod.mk.injEq] at h
          obtain ⟨h1, _⟩ := h
          subst h1
          obtain ⟨ihhead, ihchain⟩ := ih (i + 1) _ l' d' hrec
          constructor
          · intro a ha
            simp only [List.head?_cons, Option.some.injEq] at ha
            subst ha
            rfl
          · rw [List.chain'_cons']
            refine ⟨?_, ihchain⟩
            intro b hb
            have := ihhead b hb
            rw [this, advanceSt_dts]

/-- Indexed form of a `Chain'` relation: adjacent entries are related. -/
theorem chain'_relOfGetElem {α : Type} {R : α → α → Prop} {l : List α}
    (h : List.Chain' R l) :
    ∀ (i : Nat) (a b : α), l[i]? = some a → l[i + 1]? = some b → R a b := by
  intro i a b ha hb
  obtain ⟨hi, ha'⟩ := List.getElem?_eq_some.mp ha
  obtain ⟨hi1, hb'⟩ := List.getElem?_eq_some.mp hb
  have hr := List.chain'_iff_get.mp h i (by omega)
  simpa [List.get_eq_getElem, ha', hb'] using hr

/-- C1: for every track successfully built by `buildSampleTable`, the dense
sample array is in decode order with chained decode timestamps:
`Samples[0].DTS = 0` and, for every `i` with `i+1 < len(Samples)`,
`Samples[i].DTS + Samples[i].Duration == Samples[i+1].DTS`. -/
theorem spec_C1 (stsz : Option (List Nat)) (stts : Option (List SttsEntry))
    (stsc : Option (List StscEntry)) (co64 : Option (List Nat))
    (stco : Option (List Nat)) (ctts : Option (List CttsEntry))
    (stss : Option (List Nat)) (l : List Sample) (d : Nat)
    (h : buildSampleTable stsz stts stsc co64 stco ctts stss = .ok l d) :
    (∀ a, l.head? = some a → a.dts = 0) ∧
      ∀ (i : Nat) (a b : Sample), l[i]? = some a → l[i + 1]? = some b →
        a.dts + (a.duration : Int) = b.dts := by
  rcases stsz with _ | sz
  · simp [buildSampleTable] at h
  rcases stts with _ | tt
  · simp [buildSampleTable] at h
  rcases stsc with _ | sc
  · simp [buildSampleTable] at h
  rcases hco : chunkOffsetTable co64 stco with _ | cos
  · simp [buildSampleTable, hco] at h
  simp only [buildSampleTable, hco] at h
  split at h
  case h_2 => exact absurd h (by simp)
  case h_1 l' d' hloop =>
    simp only [BuildResult.ok.injEq] at h
    obtain ⟨h1, _⟩ := h
    subst h1
    obtain ⟨hhead, hchain⟩ := buildLoop_dts_chain sz tt sc cos ctts stss _ _ _ _ _ hloop
    refine ⟨fun a ha => ?_, fun i a b ha hb => chain'_relOfGetElem hchain i a b ha hb⟩
    simpa [BuildSt.init] using hhead a ha

/-- Witness for C1 at a concrete two-sample build. -/
theorem spec_C1_witness :
    (Sample.mk 50 3 10 0 0 true).dts = 0 ∧
      (Sample.mk 50 3 10 0 0 true).dts + ((Sample.mk 50 3 10 0 0 true).duration : Int)
        = (Sample.mk 53 4 10 10 0 true).dts := by
  have h : buildSampleTable (some [3, 4]) (some [⟨2, 10⟩]) (some [⟨1, 2, 1⟩]) none
      (some [50]) none none
      = .ok [Sample.mk 50 3 10 0 0 true, Sample.mk 53 4 10 10 0 true] 1 := by decide
  obtain ⟨h1, h2⟩ := spec_C1 _ _ _ _ _ _ _ _ _ h
  exact ⟨h1 _ rfl, h2 0 _ _ rfl rfl⟩

/-! ### C5: sync marking of the first sample -/

/-- The first sample emitted by the build loop carries the sync flag computed
from the current sync cursor. -/
theorem buildLoop_head_sync (sz : List Nat) (tt : List SttsEntry) (sc : List StscEntry)
    (cos : List Int) (ctts : Option (List CttsEntry)) (stss : Option (List Nat))
    (rem i : Nat) (st : BuildSt) (l : List Sample) (d : Nat)
    (h : buildLoop sz tt sc cos ctts stss i (rem + 1) st = some (l, d)) :
    ∀ a, l.head? = some a → a.sync = syncFlag stss st.syncIdx i := by
  simp only [buildLoop] at h
  split at h
  case h_2 => exact absurd h (by simp)
  case h_1 ce size de chunkOff hce hsize hde hco =>
    split at h
    case isTrue =>
      simp only [Option.some.injEq, Prod.mk.injEq] at h
      obtain ⟨h1, _⟩ := h
      subst h1
      intro a ha
      simp only [List.head?_cons, Option.some.injEq] at ha
      subst ha
      rfl
    case isFalse =>
      split at h
      case h_2 => exact absurd h (by simp)
      case h_1 l' d' hrec =>
        simp only [Option.some.injEq, Prod.mk.injEq] at h
        obtain ⟨h1, _⟩ := h
        subst h1
        intro a ha
        simp only [List.head?_cons, Option.some.injEq] at ha
        subst ha
        rfl

/-- Without an `stss` table every emitted sample is marked sync. -/
theorem buildLoop_all_sync (sz : List Nat) (tt : List SttsEntry) (sc : List StscEntry)
    (cos : List Int) (ctts : Option (List CttsEntry)) :
    ∀ (rem i : Nat) (st : BuildSt) (l : List Sample) (d : Nat),
      buildLoop sz tt sc cos ctts none i rem st = some (l, d) →
      ∀ a ∈ l, a.sync = true := by
  intro rem
  induction rem with
  | zero =>
    intro i st l d h
    simp only [buildLoop, Option.some.injEq, Prod.mk.injEq] at h
    obtain ⟨h1, _⟩ := h
    subst h1
    simp
  | succ rem ih =>
    intro i st l d h
    simp only [buildLoop] at h
    split at h
    case h_2 => exact absurd h (by simp)
    case h_1 ce size de chunkOff hce hsize hde hco =>
      split at h
      case isTrue =>
        simp only [Option.some.injEq, Prod.mk.injEq] at h
        obtain ⟨h1, _⟩ := h
        subst h1
        intro a ha
        simp only [List.mem_singleton] at ha
        subst ha
        rfl
      case isFalse =>
        split at h
        case h_2 => exact absurd h (by simp)
        case h_1 l' d' hrec =>
          simp only [Option.some.injEq, Prod.mk.injEq] at h
          obtain ⟨h1, _⟩ := h
          subst h1
          intro a ha
          rcases List.mem_cons.mp ha with ha | ha
          · subst ha; rfl
          · exact ih (i + 1) _ l' d' hrec a ha

/-- Counterexample to C5 as stated: an input whose `stss` table is present
(its single entry names sample 2, 1-based) builds successfully, yet sample 0
of the dense array is NOT marked sync. -/
theorem spec_C5_cex :
    buildSampleTable (some [5, 6]) (some [⟨2, 10⟩]) (some [⟨1, 2, 1⟩]) none
        (some [100]) none (some [2])
      = .ok [Sample.mk 100 5 10 0 0 false, Sample.mk 105 6 10 10 0 true] 1 ∧
      ([Sample.mk 100 5 10 0 0 false,
        Sample.mk 105 6 10 10 0 true].head?.map Sample.sync) = some false := by
  constructor
  · decide
  · rfl

/-- C5 (amended): on every fully built track, when no `stss` table is present
every sample is marked sync; when an `stss` table is present, sample 0 is
marked sync if and only if the first `stss` entry equals 1 (the 1-based
number of the first sample). -/
theorem spec_C5 (stsz : Option (List Nat)) (stts : Option (List SttsEntry))
    (stsc : Option (List StscEntry)) (co64 : Option (List Nat))
    (stco : Option (List Nat)) (ctts : Option (List CttsEntry))
    (stss : Option (List Nat)) (l : List Sample) (d : Nat)
    (h : buildSampleTable stsz stts stsc co64 stco ctts stss = .ok l d) :
    (stss = none → ∀ a ∈ l, a.sync = true) ∧
      ∀ es, stss = some es → ∀ a, l.head? = some a →
        (a.sync = true ↔ es[0]? = some 1) := by
  rcases stsz with _ | sz
  · simp [buildSampleTable] at h
  rcases stts with _ | tt
  · simp [buildSampleTable] at h
  rcases stsc with _ | sc
  · simp [buildSampleTable] at h
  rcases hco : chunkOffsetTable co64 stco with _ | cos
  · simp [buildSampleTable, hco] at h
  simp only [buildSampleTable, hco] at h
  split at h
  case h_2 => exact absurd h (by simp)
  case h_1 l' d' hloop =>
    simp only [BuildResult.ok.injEq] at h
    obtain ⟨h1, _⟩ := h
    subst h1
    constructor
    · intro hnone a ha
      subst hnone
      exact buildLoop_all_sync sz tt sc cos ctts _ _ _ _ _ hloop a ha
    · intro es hes a ha
      subst hes
      rcases hn : sz.length with _ | n
      · rw [hn] at hloop
        simp only [buildLoop, Option.some.injEq, Prod.mk.injEq] at hloop
        obtain ⟨h2, _⟩ := hloop
        subst h2
        simp at ha
      · rw [hn] at hloop
        have hs := buildLoop_head_sync sz tt sc cos ctts (some es) n 0 BuildSt.init l' d' hloop a ha
        rw [hs]
        show syncFlag (some es) 0 0 = true ↔ es[0]? = some 1
        simp only [syncFlag]
        rcases h0 : es[0]? with _ | v
        · simp
        · simp [Nat.mod_eq_of_lt (show (1 : Nat) < 2 ^ 32 by norm_num)]

/-- Witness for C5 at two concrete builds: one without `stss` (all samples
sync), one whose `stss` lists sample 1 (first sample sync). -/
theorem spec_C5_witness :
    (Sample.mk 50 3 10 0 0 true).sync = true ∧
      ((Sample.mk 100 5 10 0 0 true).sync = true ↔ ([1] : List Nat)[0]? = some 1) := by
  have h1 : buildSampleTable (some [3, 4]) (some [⟨2, 10⟩]) (some [⟨1, 2, 1⟩]) none
      (some [50]) none none
      = .ok [Sample.mk 50 3 10 0 0 true, Sample.mk 53 4 10 10 0 true] 1 := by decide
  have h2 : buildSampleTable (some [5, 6]) (some [⟨2, 10⟩]) (some [⟨1, 2, 1⟩]) none
      (some [100]) none (some [1])
      = .ok [Sample.mk 100 5 10 0 0 true, Sample.mk 105 6 10 10 0 false] 1 := by decide
  constructor
  · exact (spec_C5 _ _ _ _ _ _ _ _ _ h1).1 rfl _ (by simp)
  · exact (spec_C5 _ _ _ _ _ _ _ _ _ h2).2 [1] rfl _ rfl

/-! ### C6: rejection behaviour on cursor overruns -/

/-- True exactly on the error-return results of the build. -/
def BuildResult.isMissing : BuildResult → Bool
  | .missing _ => true
  | _ => false

/-- Counterexample to C6 as stated: the composition-offset table has a single
entry covering one sample while `stsz` declares two, so the `ctts` cursor runs
past its backing table before the declared sample count is reached — yet
`buildSampleTable` succeeds and produces a sample array (the overrun sample
gets presentation offset 0) instead of returning an error. -/
theorem spec_C6_cex :
    buildSampleTable (some [5, 6]) (some [⟨2, 10⟩]) (some [⟨1, 2, 1⟩]) none
        (some [100]) (some [⟨1, 3⟩]) none
      = .ok [Sample.mk 100 5 10 0 3 true, Sample.mk 105 6 10 10 0 true] 1 := by
  decide

/-- C6 (amended): the build returns an error only for a missing required
table, never for a per-sample cursor overrun: `buildSampleTable` yields a
`missing` error iff `stsz`, `stts`, `stsc`, or both chunk-offset tables are
absent.  A time-to-sample cursor overrun instead aborts with an
index-out-of-range panic, as the second conjunct shows on a concrete input
whose `stts` covers one sample while `stsz` declares two. -/
theorem spec_C6 :
    (∀ (stsz : Option (List Nat)) (stts : Option (List SttsEntry))
        (stsc : Option (List StscEntry)) (co64 : Option (List Nat))
        (stco : Option (List Nat)) (ctts : Option (List CttsEntry))
        (stss : Option (List Nat)),
        (buildSampleTable stsz stts stsc co64 stco ctts stss).isMissing = true ↔
          (stsz = none ∨ stts = none ∨ stsc = none ∨ (co64 = none ∧ stco = none))) ∧
      buildSampleTable (some [1, 1]) (some [⟨1, 5⟩]) (some [⟨1, 2, 1⟩]) none
          (some [100]) none none = .panicked := by
  constructor
  · intro stsz stts stsc co64 stco ctts stss
    constructor
    · intro hmiss
      rcases stsz with _ | sz
      · exact Or.inl rfl
      rcases stts with _ | tt
      · exact Or.inr (Or.inl rfl)
      rcases stsc with _ | sc
      · exact Or.inr (Or.inr (Or.inl rfl))
      rcases h64 : co64 with _ | c64
      · rcases hsco : stco with _ | sco
        · exact Or.inr (Or.inr (Or.inr ⟨rfl, rfl⟩))
        · exfalso
          subst h64 hsco
          revert hmiss
          simp only [buildSampleTable, chunkOffsetTable]
          split <;> simp [BuildResult.isMissing]
      · exfalso
        subst h64
        revert hmiss
        simp only [buildSampleTable, chunkOffsetTable]
        split <;> simp [BuildResult.isMissing]
    · intro hm
      rcases hm with h | h | h | ⟨h1, h2⟩
      · subst h; rfl
      · subst h
        rcases stsz with _ | sz
        · rfl
        · rfl
      · subst h
        rcases stsz with _ | sz
        · rfl
        rcases stts with _ | tt
        · rfl
        · rfl
      · subst h1; subst h2
        rcases stsz with _ | sz
        · rfl
        rcases stts with _ | tt
        · rfl
        rcases stsc with _ | sc
        · rfl
        · rfl
  · decide

/-- Witness for C6's iff at a concrete input missing its `stsz` table. -/
theorem spec_C6_witness :
    (buildSampleTable none none none none none none none).isMissing = true := by
  exact (spec_C6.1 none none none none none none none).mpr (Or.inl rfl)

/-! ### Fragmenter (remux package) -/

/-- `minFragmentDuration`: the minimum fragment duration in seconds. -/
def minFragmentDuration : Nat := 1

/-- `remux.Track` (the fields the fragmenter and seek helpers read). -/
structure Track where
  trackID : Nat
  timeScale : Nat
  samples : List Sample
  deriving Repr, DecidableEq, Inhabited

/-- Presentation timestamp `pts = DTS + PresentationOffset` as computed
throughout the remux package. -/
def pts (s : Sample) : Int := s.dts + s.presentationOffset

/-- `mp4.TrunEntry` as populated by `generateFragment`. -/
structure TrunEntry where
  sampleDuration : Nat
  sampleSize : Nat
  sampleFlags : Nat
  sampleCompositionTimeOffset : Int
  deriving Repr, DecidableEq, Inhabited

/-- `remux.byteRange`: a contiguous `[start, stop)` range of source bytes. -/
structure ByteRange where
  start : Int
  stop : Int
  deriving Repr, DecidableEq, Inhabited

/-- The tuple returned by `generateFragment`. -/
structure FragResult where
  entries : List TrunEntry
  ranges : List ByteRange
  totalLen : Int
  nextSample : Nat
  version : Nat
  deriving Repr, DecidableEq, Inhabited

/-- The walk of `generateFragment` that finds the exclusive end of the
fragment: starting at `j`, stop at the first sample hitting either break
condition of the loop, else run to the end of the sample array.
`startDts` is the DTS of `firstSample` and `threshold` is
`int64(track.TimeScale) * minFragmentDuration`. -/
def fragEnd (samples : List Sample) (firstSample : Nat) (endTimeScaled : Int)
    (startDts threshold : Int) (j : Nat) : Nat :=
  if h : j < samples.length then
    let s := samples[j]
    if endTimeScaled > 0 ∧ pts s ≥ endTimeScaled then j
    else if endTimeScaled = 0 ∧ j > firstSample ∧ s.sync = true ∧ s.dts - startDts ≥ threshold then j
    else fragEnd samples firstSample endTimeScaled startDts threshold (j + 1)
  else j
termination_by samples.length - j

/-- The combined break condition of `generateFragment`'s boundary walk at
index `k`: either the hard stop on the end time, or a sync-sample fragment
boundary after the minimum duration. -/
def stopCond (firstSample : Nat) (endTimeScaled startDts threshold : Int)
    (a : Sample) (k : Nat) : Prop :=
  (endTimeScaled > 0 ∧ pts a ≥ endTimeScaled) ∨
    (endTimeScaled = 0 ∧ k > firstSample ∧ a.sync = true ∧ a.dts - startDts ≥ threshold)

instance (firstSample : Nat) (endTimeScaled startDts threshold : Int)
    (a : Sample) (k : Nat) :
    Decidable (stopCond firstSample endTimeScaled startDts threshold a k) := by
  unfold stopCond
  infer_instance

/-- Range coalescing, mirroring the `ranges` loop body of `generateFragment`:
a sample contiguous with the last range extends it, otherwise a new range is
appended. -/
def addRange (rs : List ByteRange) (s : Sample) : List ByteRange :=
  let sStart := s.offset
  let sEnd := s.offset + (s.size : Int)
  match rs.getLast? with
  | some r => if r.stop = sStart then rs.dropLast ++ [⟨r.start, sEnd⟩] else rs ++ [⟨sStart, sEnd⟩]
  | none => [⟨sStart, sEnd⟩]

/-- The per-sample flags word: `0x2000000` for sync samples, `0x1010000`
otherwise. -/
def sampleFlagsWord (s : Sample) : Nat :=
  if s.sync then 0x2000000 else 0x1010000

/-- The `mp4.TrunEntry` built for one selected sample. -/
def mkTrunEntry (s : Sample) : TrunEntry :=
  ⟨s.duration, s.size, sampleFlagsWord s, s.presentationOffset⟩

/-- `generateFragment` (remux package): boundary selection, run construction
and byte-range coalescing for the fragment starting at `firstSample`. -/
def generateFragment (track : Track) (firstSample : Nat) (endTimeScaled : Int) :
    FragResult :=
  let samples := track.samples
  if h : firstSample < samples.length then
    let startDts := (samples[firstSample]).dts
    let threshold : Int := (track.timeScale : Int) * minFragmentDuration
    let lastSample := fragEnd samples firstSample endTimeScaled startDts threshold firstSample
    let n := lastSample - firstSample
    if n = 0 then ⟨[], [], 0, lastSample, 0⟩
    else
      let sel := (samples.drop firstSample).take n
      let version := sel.foldl (fun v s => if s.presentationOffset < 0 then 1 else v) 0
      let entries := sel.map mkTrunEntry
      let totalLen := sel.foldl (fun acc s => acc + (s.size : Int)) 0
      let ranges := sel.foldl addRange []
      ⟨entries, ranges, totalLen, lastSample, version⟩
  else ⟨[], [], 0, firstSample, 0⟩

/-! ### C2: fragment boundary selection -/

/-- Characterization of `fragEnd`: the walk returns the least index at or
after `j` whose sample satisfies the break condition, or the array length if
no sample does. -/
theorem fragEnd_spec (samples : List Sample) (f : Nat) (e sd th : Int) :
    ∀ (m j : Nat), samples.length - j ≤ m → j ≤ samples.length →
      (j ≤ fragEnd samples f e sd th j ∧ fragEnd samples f e sd th j ≤ samples.length) ∧
        (∀ k, j ≤ k → k < fragEnd samples f e sd th j →
          ∀ a, samples[k]? = some a → ¬ stopCond f e sd th a k) ∧
        (∀ a, samples[fragEnd samples f e sd th j]? = some a →
          stopCond f e sd th a (fragEnd samples f e sd th j)) := by
  intro m
  induction m with
  | zero =>
    intro j hm hj
    have hj' : j = samples.length := by omega
    rw [fragEnd, dif_neg (by omega)]
    refine ⟨⟨le_refl _, by omega⟩, fun k hk1 hk2 => by omega, fun a ha => ?_⟩
    rw [List.getElem?_eq_none (by omega)] at ha
    exact absurd ha (by simp)
  | succ m ih =>
    intro j hm hj
    by_cases hlt : j < samples.length
    · rw [fragEnd, dif_pos hlt]
      by_cases hc1 : e > 0 ∧ pts samples[j] ≥ e
      · rw [if_pos hc1]
        refine ⟨⟨le_refl _, by omega⟩, fun k hk1 hk2 => by omega, fun a ha => ?_⟩
        rw [List.getElem?_eq_getElem hlt] at ha
        cases ha
        exact Or.inl hc1
      · rw [if_neg hc1]
        by_cases hc2 : e = 0 ∧ j > f ∧ (samples[j]).sync = true ∧ (samples[j]).dts - sd ≥ th
        · rw [if_pos hc2]
          refine ⟨⟨le_refl _, by omega⟩, fun k hk1 hk2 => by omega, fun a ha => ?_⟩
          rw [List.getElem?_eq_getElem hlt] at ha
          cases ha
          exact Or.inr hc2
        · rw [if_neg hc2]
          obtain ⟨⟨hb1, hb2⟩, hno, hstop⟩ := ih (j + 1) (by omega) (by omega)
          refine ⟨⟨by omega, hb2⟩, ?_, hstop⟩
          intro k hk1 hk2 a ha
          rcases Nat.eq_or_lt_of_le hk1 with hk | hk
          · subst hk
            rw [List.getElem?_eq_getElem hlt] at ha
            cases ha
            intro hstop'
            rcases hstop' with h' | h'
            · exact hc1 h'
            · exact hc2 h'
          · exact hno k hk hk2 a ha
    · rw [fragEnd, dif_neg hlt]
      refine ⟨⟨le_refl _, by omega⟩, fun k hk1 hk2 => by omega, fun a ha => ?_⟩
      rw [List.getElem?_eq_none (by omega)] at ha
      exact absurd ha (by simp)

/-- C2: `generateFragment` stops exactly as specified.  Given a track, a
starting sample index `firstSample` (in range, with sample `f`), the chosen
exclusive end `nextSample` satisfies: it lies in `[firstSample, len]`; no
included sample (index in `[firstSample, nextSample)`) satisfies the stop
condition; the sample at `nextSample` (when one exists) satisfies the stop
condition — where the stop condition at index `k` with sample `a` is:
`end_time_scaled > 0` and `pts a ≥ end_time_scaled`, or `end_time_scaled = 0`
and `k > firstSample` and `a` is sync and `a.dts - f.dts ≥ timescale *
minFragmentDuration`.  All samples before the stop point are included:
the trun run has exactly `nextSample - firstSample` entries. -/
theorem spec_C2 (track : Track) (firstSample : Nat) (endTimeScaled : Int)
    (f : Sample) (hf : track.samples[firstSample]? = some f) :
    (firstSample ≤ (generateFragment track firstSample endTimeScaled).nextSample ∧
      (generateFragment track firstSample endTimeScaled).nextSample ≤ track.samples.length) ∧
      (∀ k a, firstSample ≤ k →
        k < (generateFragment track firstSample endTimeScaled).nextSample →
        track.samples[k]? = some a →
        ¬ stopCond firstSample endTimeScaled f.dts
            ((track.timeScale : Int) * minFragmentDuration) a k) ∧
      (∀ a, track.samples[(generateFragment track firstSample endTimeScaled).nextSample]? = some a →
        stopCond firstSample endTimeScaled f.dts
          ((track.timeScale : Int) * minFragmentDuration) a
          (generateFragment track firstSample endTimeScaled).nextSample) ∧
      (generateFragment track firstSample endTimeScaled).entries.length =
        (generateFragment track firstSample endTimeScaled).nextSample - firstSample := by
  obtain ⟨hlt, hfe⟩ := List.getElem?_eq_some.mp hf
  have hfd : (track.samples[firstSample]).dts = f.dts := by rw [hfe]
  have hspec := fragEnd_spec track.samples firstSample endTimeScaled
    (track.samples[firstSample]).dts ((track.timeScale : Int) * minFragmentDuration)
    (track.samples.length - firstSample) firstSample (le_refl _) (by omega)
  rw [hfd] at hspec
  obtain ⟨⟨hb1, hb2⟩, hno, hstop⟩ := hspec
  have hnext : (generateFragment track firstSample endTimeScaled).nextSample =
      fragEnd track.samples firstSample endTimeScaled f.dts
        ((track.timeScale : Int) * minFragmentDuration) firstSample := by
    simp only [generateFragment, dif_pos hlt, hfd]
    split <;> rfl
  have hlen : (generateFragment track firstSample endTimeScaled).entries.length =
      fragEnd track.samples firstSample endTimeScaled f.dts
        ((track.timeScale : Int) * minFragmentDuration) firstSample - firstSample := by
    simp only [generateFragment, dif_pos hlt, hfd]
    split
    · rename_i hzero
      simp [hzero]
    · simp only [List.length_map, List.length_take, List.length_drop]
      omega
  rw [hnext, hlen]
  exact ⟨⟨hb1, hb2⟩, fun k a hk1 hk2 ha => hno k hk1 hk2 a ha, hstop, rfl⟩

/-- Witness for C2 on a concrete four-sample track with no end time: the
fragment stops at the sync sample one second past the start. -/
theorem spec_C2_witness :
    (0 ≤ (generateFragment (Track.mk 7 10
        [Sample.mk 0 2 5 0 0 true, Sample.mk 2 3 5 5 0 false,
         Sample.mk 5 4 5 10 1 true, Sample.mk 100 5 5 15 0 false]) 0 0).nextSample ∧
      (generateFragment (Track.mk 7 10
        [Sample.mk 0 2 5 0 0 true, Sample.mk 2 3 5 5 0 false,
         Sample.mk 5 4 5 10 1 true, Sample.mk 100 5 5 15 0 false]) 0 0).nextSample ≤ 4) ∧
      (generateFragment (Track.mk 7 10
        [Sample.mk 0 2 5 0 0 true, Sample.mk 2 3 5 5 0 false,
         Sample.mk 5 4 5 10 1 true, Sample.mk 100 5 5 15 0 false]) 0 0).entries.length =
        (generateFragment (Track.mk 7 10
        [Sample.mk 0 2 5 0 0 true, Sample.mk 2 3 5 5 0 false,
         Sample.mk 5 4 5 10 1 true, Sample.mk 100 5 5 15 0 false]) 0 0).nextSample - 0 := by
  have h := spec_C2 (Track.mk 7 10
      [Sample.mk 0 2 5 0 0 true, Sample.mk 2 3 5 5 0 false,
       Sample.mk 5 4 5 10 1 true, Sample.mk 100 5 5 15 0 false]) 0 0
    (Sample.mk 0 2 5 0 0 true) rfl
  exact ⟨h.1, h.2.2.2⟩

/-! ### writeMoof (remux package) -/

/-- Big-endian 4-byte encoding, mirroring `binary.BigEndian.PutUint32`. -/
def be32 (v : Nat) : List Nat :=
  [v / 2 ^ 24 % 256, v / 2 ^ 16 % 256, v / 2 ^ 8 % 256, v % 256]

/-- Big-endian 8-byte encoding, mirroring `binary.BigEndian.PutUint64`. -/
def be64 (v : Nat) : List Nat :=
  [v / 2 ^ 56 % 256, v / 2 ^ 48 % 256, v / 2 ^ 40 % 256, v / 2 ^ 32 % 256,
   v / 2 ^ 24 % 256, v / 2 ^ 16 % 256, v / 2 ^ 8 % 256, v % 256]

/-- Big-endian 2-byte encoding, mirroring `binary.BigEndian.PutUint16`. -/
def be16 (v : Nat) : List Nat := [v / 2 ^ 8 % 256, v % 256]

/-- Go's `uint32(x)` conversion from a signed 64-bit value: reduction
modulo `2^32` (two's complement low 32 bits). -/
def u32ofInt (x : Int) : Nat := (x % (2 ^ 32 : Int)).toNat

/-- The ASCII bytes of `"moof"`. -/
def moofTag : List Nat := [0x6d, 0x6f, 0x6f, 0x66]
/-- The ASCII bytes of `"mfhd"`. -/
def mfhdTag : List Nat := [0x6d, 0x66, 0x68, 0x64]
/-- The ASCII bytes of `"traf"`. -/
def trafTag : List Nat := [0x74, 0x72, 0x61, 0x66]
/-- The ASCII bytes of `"tfhd"`. -/
def tfhdTag : List Nat := [0x74, 0x66, 0x68, 0x64]
/-- The ASCII bytes of `"tfdt"`. -/
def tfdtTag : List Nat := [0x74, 0x66, 0x64, 0x74]
/-- The ASCII bytes of `"trun"`. -/
def trunTag : List Nat := [0x74, 0x72, 0x75, 0x6e]

/-- The 16 bytes written for one trun entry:
duration, size, flags, composition-time offset (as `uint32`). -/
def trunEntryBytes (e : TrunEntry) : List Nat :=
  be32 e.sampleDuration ++ be32 e.sampleSize ++ be32 e.sampleFlags ++
    be32 (u32ofInt e.sampleCompositionTimeOffset)

/-- `writeMoof` (remux package): the bytes of a complete `moof` box, written
in the exact order of the Go buffer fills. -/
def moofBytes (seqNum trackID baseMediaDecodeTime : Nat) (entries : List TrunEntry)
    (trunVersion : Nat) : List Nat :=
  let n := entries.length
  let trunSize := 20 + n * 16
  let trafSize := 8 + 16 + 16 + trunSize
  let moofSize := 8 + 16 + trafSize
  let dataOffset := moofSize + 8
  be32 moofSize ++ moofTag ++
    (be32 16 ++ mfhdTag ++ [0, 0, 0, 0] ++ be32 seqNum) ++
    (be32 trafSize ++ trafTag) ++
    (be32 16 ++ tfhdTag ++ [0, 0x02, 0, 0] ++ be32 trackID) ++
    (be32 16 ++ tfdtTag ++ [0, 0, 0, 0] ++ be32 baseMediaDecodeTime) ++
    (be32 trunSize ++ trunTag ++ [trunVersion % 256, 0x00, 0x0f, 0x01] ++
      be32 n ++ be32 dataOffset) ++
    (entries.map trunEntryBytes).flatten

/-! ### C3: moof layout -/

/-- Total length of the trun-entry bytes: 16 per entry. -/
theorem trunEntryBytes_sum_length (es : List TrunEntry) :
    (List.map (List.length ∘ trunEntryBytes) es).sum = 16 * es.length := by
  induction es with
  | nil => rfl
  | cons e l ih =>
    simp [trunEntryBytes, be32, ih]
    ring

/-- The `trunVersion` fold of `generateFragment` flags whether any selected
sample has a negative composition offset. -/
theorem foldl_version (l : List Sample) :
    ∀ v : Nat, l.foldl (fun v s => if s.presentationOffset < 0 then 1 else v) v =
      if l.any (fun s => decide (s.presentationOffset < 0)) then 1 else v := by
  induction l with
  | nil => intro v; simp
  | cons a l ih =>
    intro v
    simp only [List.foldl_cons, List.any_cons, ih]
    by_cases hp : a.presentationOffset < 0 <;> by_cases hq : l.any fun s => decide (s.presentationOffset < 0) <;>
      simp [hp, hq]

/-- The fragment's trun version is 1 exactly when a selected sample has a
negative composition offset. -/
theorem generateFragment_version (track : Track) (firstSample : Nat) (endTimeScaled : Int) :
    (generateFragment track firstSample endTimeScaled).version =
      if ((track.samples.drop firstSample).take
            ((generateFragment track firstSample endTimeScaled).nextSample - firstSample)).any
          (fun s => decide (s.presentationOffset < 0))
      then 1 else 0 := by
  by_cases h : firstSample < track.samples.length
  · simp only [generateFragment, dif_pos h]
    split
    · rename_i hzero
      simp [hzero]
    · rename_i hnz
      simp only []
      rw [foldl_version]
  · simp only [generateFragment, dif_neg h]
    simp

/-- C3: every `moof` produced by `writeMoof` from a `generateFragment` run
has total size `8 + 16 + (8 + 16 + 16 + (20 + 16N))` for `N` trun entries,
its trun `data_offset` field (bytes 80..84) is the big-endian encoding of
`moof_size + 8`, its trun flags word (bytes 73..76) is `0x000f01`, and the
trun version byte (byte 72) is 1 iff some selected sample has a negative
composition offset, else 0. -/
theorem spec_C3 (seqNum trackID bmdt : Nat) (track : Track) (firstSample : Nat)
    (endTimeScaled : Int) :
    (moofBytes seqNum trackID bmdt
        (generateFragment track firstSample endTimeScaled).entries
        (generateFragment track firstSample endTimeScaled).version).length =
      8 + 16 + (8 + 16 + 16 +
        (20 + 16 * (generateFragment track firstSample endTimeScaled).entries.length)) ∧
    ((moofBytes seqNum trackID bmdt
        (generateFragment track firstSample endTimeScaled).entries
        (generateFragment track firstSample endTimeScaled).version).drop 80).take 4 =
      be32 (8 + 16 + (8 + 16 + 16 +
        (20 + 16 * (generateFragment track firstSample endTimeScaled).entries.length)) + 8) ∧
    ((moofBytes seqNum trackID bmdt
        (generateFragment track firstSample endTimeScaled).entries
        (generateFragment track firstSample endTimeScaled).version).drop 73).take 3 =
      [0x00, 0x0f, 0x01] ∧
    (moofBytes seqNum trackID bmdt
        (generateFragment track firstSample endTimeScaled).entries
        (generateFragment track firstSample endTimeScaled).version)[72]? =
      some (if ((track.samples.drop firstSample).take
              ((generateFragment track firstSample endTimeScaled).nextSample - firstSample)).any
            (fun s => decide (s.presentationOffset < 0))
          then 1 else 0) := by
  refine ⟨?_, ?_, rfl, ?_⟩
  · simp [moofBytes, be32, moofTag, mfhdTag, trafTag, tfhdTag, tfdtTag, trunTag,
      trunEntryBytes_sum_length]
    omega
  · rw [show 16 * (generateFragment track firstSample endTimeScaled).entries.length =
        (generateFragment track firstSample endTimeScaled).entries.length * 16 from
      Nat.mul_comm _ _]
    rfl
  · have h72 : (moofBytes seqNum trackID bmdt
        (generateFragment track firstSample endTimeScaled).entries
        (generateFragment track firstSample endTimeScaled).version)[72]? =
        some ((generateFragment track firstSample endTimeScaled).version % 256) := rfl
    rw [h72, generateFragment_version]
    split <;> norm_num

/-! ### C9: tfdt emission by the stream writer -/

/-- The `moof` bytes emitted per fragment by `Writer.WriteTo` /
`Writer.WriteToFrom`: `baseMediaDecodeTime := uint32(track.Samples[sample].DTS
- dtsOffset)` is handed to `writeMoof` together with the fragment's trun
entries and version. -/
def writeToMoofBytes (track : Track) (seqNum : Nat) (sample : Nat) (dtsOffset : Int)
    (endTimeScaled : Int) : List Nat :=
  moofBytes seqNum track.trackID
    (u32ofInt ((((track.samples[sample]?).getD default).dts) - dtsOffset))
    (generateFragment track sample endTimeScaled).entries
    (generateFragment track sample endTimeScaled).version

/-- C9: every fragment's `tfdt` is written as version 0 (byte 56 of the
`moof` is 0) and its 4-octet `base_media_decode_time` field (bytes 60..64)
is the big-endian encoding of `(first sample's DTS - dts_offset)` reduced
modulo `2^32` — lossy truncation for values exceeding 32-bit unsigned. -/
theorem spec_C9 (track : Track) (seqNum sample : Nat) (dtsOffset endTimeScaled : Int)
    (s : Sample) (hs : track.samples[sample]? = some s) :
    (writeToMoofBytes track seqNum sample dtsOffset endTimeScaled)[56]? = some 0 ∧
      ((writeToMoofBytes track seqNum sample dtsOffset endTimeScaled).drop 60).take 4 =
        be32 (((s.dts - dtsOffset) % (2 ^ 32 : Int)).toNat) := by
  constructor
  · rfl
  · simp only [writeToMoofBytes, hs, Option.getD_some]
    rfl

/-- Witness for C9 at a concrete one-sample track with a decode time that
exceeds 32 bits, showing the truncated field bytes. -/
theorem spec_C9_witness :
    (writeToMoofBytes (Track.mk 1 1000 [Sample.mk 0 4 10 (2 ^ 32 + 5) 0 true]) 1 0 0 0)[56]?
        = some 0 ∧
      ((writeToMoofBytes (Track.mk 1 1000 [Sample.mk 0 4 10 (2 ^ 32 + 5) 0 true]) 1 0 0 0).drop
            60).take 4 =
        be32 ((((2 ^ 32 + 5 : Int) - 0) % (2 ^ 32 : Int)).toNat) :=
  spec_C9 (Track.mk 1 1000 [Sample.mk 0 4 10 (2 ^ 32 + 5) 0 true]) 1 0 0 0
    (Sample.mk 0 4 10 (2 ^ 32 + 5) 0 true) rfl

/-! ### Seek helpers (Track.FindSampleAfter / FindSampleBefore) -/

/-- Go's `sort.Search` loop:
`i, j := 0, n; for i < j { h := (i+j)/2; if !f(h) { i = h+1 } else { j = h } }`.
-/
def sortSearchAux (f : Nat → Bool) (i j : Nat) : Nat :=
  if hij : i < j then
    if f ((i + j) / 2) then sortSearchAux f i ((i + j) / 2)
    else sortSearchAux f ((i + j) / 2 + 1) j
  else i
termination_by j - i
decreasing_by
  · omega
  · omega

/-- `sort.Search(n, f)`. -/
def sortSearch (n : Nat) (f : Nat → Bool) : Nat := sortSearchAux f 0 n

/-- The predicate of `FindSampleAfter`'s binary search:
`pts = DTS + PresentationOffset >= scaledTime` at index `i`. -/
def ptsGePred (samples : List Sample) (scaledTime : Int) (i : Nat) : Bool :=
  match samples[i]? with
  | some s => decide (pts s ≥ scaledTime)
  | none => false

/-- The predicate of `FindSampleBefore`'s binary search:
`pts > scaledTime` at index `i`. -/
def ptsGtPred (samples : List Sample) (scaledTime : Int) (i : Nat) : Bool :=
  match samples[i]? with
  | some s => decide (pts s > scaledTime)
  | none => false

/-- The forward walk of `FindSampleAfter`:
`for idx < len(samples) && !samples[idx].Sync { idx++ }`. -/
def walkFwd (samples : List Sample) (idx : Nat) : Nat :=
  if h : idx < samples.length then
    if (samples[idx]).sync then idx else walkFwd samples (idx + 1)
  else idx
termination_by samples.length - idx

/-- `Track.FindSampleAfter`, after the float multiplication
`scaledTime = int64(timeSeconds * float64(timeScale))` has been performed:
binary search for the first sample with `pts ≥ scaledTime`, walk forward to
the next sync sample, clamping to `len-1` (hence `-1` on an empty track). -/
def findSampleAfterScaled (samples : List Sample) (scaledTime : Int) : Int :=
  if sortSearch samples.length (ptsGePred samples scaledTime) ≥ samples.length then
    (samples.length : Int) - 1
  else if walkFwd samples (sortSearch samples.length (ptsGePred samples scaledTime)) ≥
      samples.length then
    (samples.length : Int) - 1
  else (walkFwd samples (sortSearch samples.length (ptsGePred samples scaledTime)) : Int)

/-- The backward walk of `FindSampleBefore`:
`for idx > 0 && !samples[idx].Sync { idx-- }` (the index is always in range
when the walk reads a sample). -/
def walkBack (samples : List Sample) : Nat → Nat
  | 0 => 0
  | idx + 1 =>
    if (match samples[idx + 1]? with | some s => s.sync | none => true) then idx + 1
    else walkBack samples idx

/-- `Track.FindSampleBefore` after the float scaling: binary search for the
last sample with `pts ≤ scaledTime` (`max(Search(pts > t) - 1, 0)`, which is
natural-number subtraction), then walk backward to a sync sample. -/
def findSampleBeforeScaled (samples : List Sample) (scaledTime : Int) : Nat :=
  walkBack samples (sortSearch samples.length (ptsGtPred samples scaledTime) - 1)

/-! ### C4 and C10: seek lemmas -/

/-- Unfolding equation for one step of the binary search. -/
theorem sortSearchAux_eq (f : Nat → Bool) (i j : Nat) :
    sortSearchAux f i j =
      if i < j then
        (if f ((i + j) / 2) then sortSearchAux f i ((i + j) / 2)
         else sortSearchAux f ((i + j) / 2 + 1) j)
      else i := by
  rw [sortSearchAux]
  rfl

/-- The binary search stays within `[i, max i j]`. -/
theorem sortSearchAux_bounds (f : Nat → Bool) :
    ∀ (d i j : Nat), j - i ≤ d →
      i ≤ sortSearchAux f i j ∧ sortSearchAux f i j ≤ max i j := by
  intro d
  induction d with
  | zero =>
    intro i j hd
    rw [sortSearchAux_eq f i j, if_neg (by omega)]
    exact ⟨le_refl _, le_max_left _ _⟩
  | succ d ih =>
    intro i j hd
    by_cases hij : i < j
    · rw [sortSearchAux_eq f i j, if_pos hij]
      by_cases hf : f ((i + j) / 2)
      · rw [if_pos hf]
        obtain ⟨h1, h2⟩ := ih i ((i + j) / 2) (by omega)
        exact ⟨h1, by omega⟩
      · rw [if_neg hf]
        obtain ⟨h1, h2⟩ := ih ((i + j) / 2 + 1) j (by omega)
        exact ⟨by omega, by omega⟩
    · rw [sortSearchAux_eq f i j, if_neg hij]
      exact ⟨le_refl _, le_max_left _ _⟩

/-- Pointwise weakening of the predicate can only move the binary search
result left: if every index accepted by `g` is accepted by `f`, the search
with `f` stops no later than the search with `g`. -/
theorem sortSearchAux_anti (f g : Nat → Bool) (hfg : ∀ k, g k = true → f k = true) :
    ∀ (d i j : Nat), j - i ≤ d →
      sortSearchAux f i j ≤ sortSearchAux g i j := by
  intro d
  induction d with
  | zero =>
    intro i j hd
    rw [sortSearchAux_eq f i j, if_neg (by omega), sortSearchAux_eq g i j, if_neg (by omega)]
  | succ d ih =>
    intro i j hd
    by_cases hij : i < j
    · rw [sortSearchAux_eq f i j, if_pos hij, sortSearchAux_eq g i j, if_pos hij]
      by_cases hg : g ((i + j) / 2)
      · rw [if_pos hg, if_pos (hfg _ hg)]
        exact ih i ((i + j) / 2) (by omega)
      · rw [if_neg hg]
        by_cases hf : f ((i + j) / 2)
        · rw [if_pos hf]
          have h1 := (sortSearchAux_bounds f d i ((i + j) / 2) (by omega)).2
          have h2 := (sortSearchAux_bounds g ((j - i) + j) ((i + j) / 2 + 1) j (by omega)).1
          omega
        · rw [if_neg hf]
          exact ih ((i + j) / 2 + 1) j (by omega)
    · rw [sortSearchAux_eq f i j, if_neg hij, sortSearchAux_eq g i j, if_neg hij]

/-- Unfolding equation for one step of the forward walk. -/
theorem walkFwd_eq (samples : List Sample) (idx : Nat) :
    walkFwd samples idx =
      if h : idx < samples.length then
        (if (samples[idx]).sync then idx else walkFwd samples (idx + 1))
      else idx := by
  rw [walkFwd]

/-- The forward walk never moves left. -/
theorem walkFwd_ge (samples : List Sample) :
    ∀ (d idx : Nat), samples.length - idx ≤ d → idx ≤ walkFwd samples idx := by
  intro d
  induction d with
  | zero =>
    intro idx hd
    rw [walkFwd_eq, dif_neg (by omega)]
  | succ d ih =>
    intro idx hd
    by_cases h : idx < samples.length
    · rw [walkFwd_eq, dif_pos h]
      by_cases hs : (samples[idx]).sync
      · rw [if_pos hs]
      · rw [if_neg hs]
        have := ih (idx + 1) (by omega)
        omega
    · rw [walkFwd_eq, dif_neg h]

/-- The forward walk never leaves the array (given an in-range start). -/
theorem walkFwd_le (samples : List Sample) :
    ∀ (d idx : Nat), samples.length - idx ≤ d → idx ≤ samples.length →
      walkFwd samples idx ≤ samples.length := by
  intro d
  induction d with
  | zero =>
    intro idx hd hle
    rw [walkFwd_eq, dif_neg (by omega)]
    omega
  | succ d ih =>
    intro idx hd hle
    by_cases h : idx < samples.length
    · rw [walkFwd_eq, dif_pos h]
      by_cases hs : (samples[idx]).sync
      · rw [if_pos hs]; omega
      · rw [if_neg hs]
        exact ih (idx + 1) (by omega) (by omega)
    · rw [walkFwd_eq, dif_neg h]
      omega

/-- A sample found at the walk's result index is a sync sample. -/
theorem walkFwd_sync (samples : List Sample) :
    ∀ (d idx : Nat), samples.length - idx ≤ d →
      ∀ a, samples[walkFwd samples idx]? = some a → a.sync = true := by
  intro d
  induction d with
  | zero =>
    intro idx hd a ha
    rw [walkFwd_eq, dif_neg (by omega)] at ha
    rw [List.getElem?_eq_none (by omega)] at ha
    exact absurd ha (by simp)
  | succ d ih =>
    intro idx hd a ha
    by_cases h : idx < samples.length
    · rw [walkFwd_eq, dif_pos h] at ha
      by_cases hs : (samples[idx]).sync
      · rw [if_pos hs, List.getElem?_eq_getElem h] at ha
        cases ha
        exact hs
      · rw [if_neg hs] at ha
        exact ih (idx + 1) (by omega) a ha
    · rw [walkFwd_eq, dif_neg h] at ha
      rw [List.getElem?_eq_none (by omega)] at ha
      exact absurd ha (by simp)

/-- One-step monotonicity of the forward walk. -/
theorem walkFwd_step (samples : List Sample) (idx : Nat) :
    walkFwd samples idx ≤ walkFwd samples (idx + 1) := by
  by_cases h : idx < samples.length
  · rw [walkFwd_eq samples idx, dif_pos h]
    by_cases hs : (samples[idx]).sync
    · rw [if_pos hs]
      have := walkFwd_ge samples (samples.length) (idx + 1) (by omega)
      omega
    · rw [if_neg hs]
  · rw [walkFwd_eq samples idx, dif_neg h, walkFwd_eq samples (idx + 1), dif_neg (by omega)]
    omega

/-- Monotonicity of the forward walk in its starting index. -/
theorem walkFwd_mono (samples : List Sample) (i1 i2 : Nat) (h : i1 ≤ i2) :
    walkFwd samples i1 ≤ walkFwd samples i2 := by
  induction i2 with
  | zero =>
    have : i1 = 0 := by omega
    subst this
    exact le_refl _
  | succ k ih =>
    rcases Nat.lt_or_ge i1 (k + 1) with hk | hk
    · exact le_trans (ih (by omega)) (walkFwd_step samples k)
    · have : i1 = k + 1 := by omega
      subst this
      exact le_refl _

/-- The binary search of `FindSampleAfter` is within `[0, n]`. -/
theorem sortSearch_le (n : Nat) (f : Nat → Bool) : sortSearch n f ≤ n := by
  have := (sortSearchAux_bounds f n 0 n (by omega)).2
  simp only [sortSearch]
  omega

/-- Monotonicity of `FindSampleAfter` in the (scaled) seek time. -/
theorem findSampleAfterScaled_mono (samples : List Sample) (t1 t2 : Int) (h : t1 ≤ t2) :
    findSampleAfterScaled samples t1 ≤ findSampleAfterScaled samples t2 := by
  have hfg : ∀ k, ptsGePred samples t2 k = true → ptsGePred samples t1 k = true := by
    intro k
    simp only [ptsGePred]
    rcases hk : samples[k]? with _ | s
    · simp
    · simp only [decide_eq_true_eq]
      omega
  have hb : sortSearch samples.length (ptsGePred samples t1) ≤
      sortSearch samples.length (ptsGePred samples t2) :=
    sortSearchAux_anti _ _ hfg samples.length 0 samples.length (by omega)
  have hb1 := sortSearch_le samples.length (ptsGePred samples t1)
  have hb2 := sortSearch_le samples.length (ptsGePred samples t2)
  simp only [findSampleAfterScaled]
  by_cases hc2 : sortSearch samples.length (ptsGePred samples t2) ≥ samples.length
  · rw [if_pos hc2]
    by_cases hc1 : sortSearch samples.length (ptsGePred samples t1) ≥ samples.length
    · rw [if_pos hc1]
    · rw [if_neg hc1]
      have hw := walkFwd_ge samples samples.length
        (sortSearch samples.length (ptsGePred samples t1)) (by omega)
      by_cases hw1 : walkFwd samples (sortSearch samples.length (ptsGePred samples t1)) ≥
          samples.length
      · rw [if_pos hw1]
      · rw [if_neg hw1]
        omega
  · rw [if_neg hc2]
    have hc1 : ¬ sortSearch samples.length (ptsGePred samples t1) ≥ samples.length := by omega
    rw [if_neg hc1]
    have hw := walkFwd_mono samples _ _ hb
    by_cases hw2 : walkFwd samples (sortSearch samples.length (ptsGePred samples t2)) ≥
        samples.length
    · rw [if_pos hw2]
      by_cases hw1 : walkFwd samples (sortSearch samples.length (ptsGePred samples t1)) ≥
          samples.length
      · rw [if_pos hw1]
      · rw [if_neg hw1]
        omega
    · rw [if_neg hw2]
      have hw1 : ¬ walkFwd samples (sortSearch samples.length (ptsGePred samples t1)) ≥
          samples.length := by omega
      rw [if_neg hw1]
      exact_mod_cast hw

/-- A sample found where the backward walk stopped is sync, unless the walk
bottomed out at index 0. -/
theorem walkBack_sync (samples : List Sample) :
    ∀ (idx : Nat) (a : Sample), samples[walkBack samples idx]? = some a →
      a.sync = true ∨ walkBack samples idx = 0 := by
  intro idx
  induction idx with
  | zero => intro a ha; right; rfl
  | succ k ih =>
    intro a ha
    by_cases hc : (match samples[k + 1]? with | some s => s.sync | none => true) = true
    · have he : walkBack samples (k + 1) = k + 1 := by
        simp only [walkBack, if_pos hc]
      rw [he] at ha
      left
      rw [ha] at hc
      simpa using hc
    · have he : walkBack samples (k + 1) = walkBack samples k := by
        simp only [walkBack, if_neg hc]
      rw [he] at ha ⊢
      exact ih a ha

/-- Counterexample to C4 as stated, on a two-sample track with timescale 1
(so seconds equal scaled units exactly): seek times 15 and 20 both resolve to
index 1, so `find_sample_after(15) >= find_sample_after(20)` holds while
`15 >= 20` fails, refuting the "iff"; moreover that returned sample (the
clamped last index) is NOT a sync sample, refuting "both return sync
samples". -/
theorem spec_C4_cex :
    findSampleAfterScaled [Sample.mk 0 1 10 0 0 true, Sample.mk 10 1 10 10 0 false] 15 ≥
        findSampleAfterScaled [Sample.mk 0 1 10 0 0 true, Sample.mk 10 1 10 10 0 false] 20 ∧
      ¬ ((15 : Int) ≥ 20) ∧
      ([Sample.mk 0 1 10 0 0 true,
          Sample.mk 10 1 10 10 0 false][(findSampleAfterScaled
            [Sample.mk 0 1 10 0 0 true, Sample.mk 10 1 10 10 0 false] 20).toNat]?).map
          Sample.sync = some false := by
  have h15 : findSampleAfterScaled
      [Sample.mk 0 1 10 0 0 true, Sample.mk 10 1 10 10 0 false] 15 = 1 := by
    simp [findSampleAfterScaled, sortSearch, sortSearchAux, ptsGePred, walkFwd, pts]
  have h20 : findSampleAfterScaled
      [Sample.mk 0 1 10 0 0 true, Sample.mk 10 1 10 10 0 false] 20 = 1 := by
    simp [findSampleAfterScaled, sortSearch, sortSearchAux, ptsGePred, walkFwd, pts]
  rw [h15, h20]
  norm_num

/-- C4 (amended): `find_sample_after` is monotone (non-strictly) in the
seek time — `t1 ≤ t2` implies `find_sample_after(t1) ≤ find_sample_after(t2)`
over scaled times; the converse direction of the spec's "iff" fails.  Both
helpers return sync samples except at the clamped edges: the sample returned
by `find_sample_after` is sync unless the result is the clamped last index
`len-1`, and the sample returned by `find_sample_before` is sync unless the
backward walk bottomed out at index 0. -/
theorem spec_C4 :
    (∀ (samples : List Sample) (t1 t2 : Int), t1 ≤ t2 →
        findSampleAfterScaled samples t1 ≤ findSampleAfterScaled samples t2) ∧
      (∀ (samples : List Sample) (t : Int) (a : Sample),
        samples[(findSampleAfterScaled samples t).toNat]? = some a →
        a.sync = true ∨ findSampleAfterScaled samples t = (samples.length : Int) - 1) ∧
      (∀ (samples : List Sample) (t : Int) (a : Sample),
        samples[findSampleBeforeScaled samples t]? = some a →
        a.sync = true ∨ findSampleBeforeScaled samples t = 0) := by
  refine ⟨findSampleAfterScaled_mono, ?_, ?_⟩
  · intro samples t a ha
    by_cases hc1 : sortSearch samples.length (ptsGePred samples t) ≥ samples.length
    · right
      simp only [findSampleAfterScaled, if_pos hc1]
    · by_cases hc2 : walkFwd samples (sortSearch samples.length (ptsGePred samples t)) ≥
          samples.length
      · right
        simp only [findSampleAfterScaled, if_neg hc1, if_pos hc2]
      · left
        have he : findSampleAfterScaled samples t =
            (walkFwd samples (sortSearch samples.length (ptsGePred samples t)) : Int) := by
          simp only [findSampleAfterScaled, if_neg hc1, if_neg hc2]
        rw [he, Int.toNat_ofNat] at ha
        exact walkFwd_sync samples samples.length _ (by omega) a ha
  · intro samples t a ha
    exact walkBack_sync samples _ a ha

/-- Witness for C4's amended statement on a one-sample track. -/
theorem spec_C4_witness :
    (findSampleAfterScaled [Sample.mk 0 1 10 0 0 true] 0 ≤
        findSampleAfterScaled [Sample.mk 0 1 10 0 0 true] 1) ∧
      ((Sample.mk 0 1 10 0 0 true).sync = true ∨
        findSampleAfterScaled [Sample.mk 0 1 10 0 0 true] 0 =
          (([Sample.mk 0 1 10 0 0 true] : List Sample).length : Int) - 1) ∧
      ((Sample.mk 0 1 10 0 0 true).sync = true ∨
        findSampleBeforeScaled [Sample.mk 0 1 10 0 0 true] 0 = 0) := by
  have hfsa : findSampleAfterScaled [Sample.mk 0 1 10 0 0 true] 0 = 0 := by
    simp [findSampleAfterScaled, sortSearch, sortSearchAux, ptsGePred, walkFwd, pts]
  have hfsb : findSampleBeforeScaled [Sample.mk 0 1 10 0 0 true] 0 = 0 := by
    simp [findSampleBeforeScaled, sortSearch, sortSearchAux, ptsGtPred, walkBack, pts]
  refine ⟨spec_C4.1 _ 0 1 (by norm_num), spec_C4.2.1 _ 0 _ ?_, spec_C4.2.2 _ 0 _ ?_⟩
  · rw [hfsa]
    rfl
  · rw [hfsb]
    rfl

/-- C10: `FindSampleAfter` returns an index in `[0, len-1]` iff the sample
array is non-empty, and returns `-1` on an empty array (so callers such as
`Writer.resolveRange`, which index `Samples` at the result, need a track with
at least one sample). -/
theorem spec_C10 (samples : List Sample) (t : Int) :
    ((0 ≤ findSampleAfterScaled samples t ∧
        findSampleAfterScaled samples t < (samples.length : Int)) ↔ samples ≠ []) ∧
      (samples = [] → findSampleAfterScaled samples t = -1) := by
  rcases samples with _ | ⟨s, rest⟩
  · constructor
    · constructor
      · intro hr
        have : findSampleAfterScaled [] t = -1 := by
          simp [findSampleAfterScaled, sortSearch, sortSearchAux]
        omega
      · intro hr
        exact absurd rfl hr
    · intro _
      simp [findSampleAfterScaled, sortSearch, sortSearchAux]
  · have hne : (s :: rest : List Sample) ≠ [] := by simp
    have hlen : 0 < (s :: rest : List Sample).length := by simp
    constructor
    · refine ⟨fun _ => hne, fun _ => ?_⟩
      by_cases hc1 : sortSearch (s :: rest).length (ptsGePred (s :: rest) t) ≥
          (s :: rest).length
      · simp only [findSampleAfterScaled, if_pos hc1]
        constructor <;> omega
      · by_cases hc2 : walkFwd (s :: rest)
            (sortSearch (s :: rest).length (ptsGePred (s :: rest) t)) ≥ (s :: rest).length
        · simp only [findSampleAfterScaled, if_neg hc1, if_pos hc2]
          constructor <;> omega
        · simp only [findSampleAfterScaled, if_neg hc1, if_neg hc2]
          constructor <;> omega
    · intro hemp
      exact absurd hemp hne

/-- Witness for C10 on an empty and a singleton track. -/
theorem spec_C10_witness :
    findSampleAfterScaled ([] : List Sample) 5 = -1 ∧
      ((0 ≤ findSampleAfterScaled [Sample.mk 0 1 10 0 0 true] 5 ∧
          findSampleAfterScaled [Sample.mk 0 1 10 0 0 true] 5 <
            (([Sample.mk 0 1 10 0 0 true] : List Sample).length : Int))) := by
  constructor
  · exact (spec_C10 [] 5).2 rfl
  · exact ((spec_C10 [Sample.mk 0 1 10 0 0 true] 5).1).mpr (by simp)

/-! ### C7: Scanner short reads -/

/-- `bmff.ScanEntry`: `{Type, Size, Offset, HeaderSize}`. -/
structure ScanEntry where
  boxType : List Nat
  size : Int
  offset : Int
  headerSize : Nat
  deriving Repr, DecidableEq, Inhabited

/-- The scanner's stored I/O error (the model's byte-list source can only
fail by running short). -/
inductive ScanErr where
  | readErr
  deriving Repr, DecidableEq, Inhabited

/-- `bmff.Scanner` over a finite byte stream: `data` is the full stream,
`cur` the underlying reader's position, `pos` the scanner's recorded stream
position, `err` the stored error and `entry` the last parsed entry. -/
structure Scanner where
  data : List Nat
  cur : Int
  pos : Int
  err : Option ScanErr
  entry : ScanEntry
  deriving Repr, DecidableEq, Inhabited

/-- Big-endian `uint32` of the first 4 bytes, mirroring `be.Uint32`. -/
def u32be (b : List Nat) : Nat :=
  b.getD 0 0 * 2 ^ 24 + b.getD 1 0 * 2 ^ 16 + b.getD 2 0 * 2 ^ 8 + b.getD 3 0

/-- Big-endian `uint64` of the first 8 bytes, mirroring `be.Uint64`. -/
def u64be (b : List Nat) : Nat :=
  b.getD 0 0 * 2 ^ 56 + b.getD 1 0 * 2 ^ 48 + b.getD 2 0 * 2 ^ 40 + b.getD 3 0 * 2 ^ 32 +
    b.getD 4 0 * 2 ^ 24 + b.getD 5 0 * 2 ^ 16 + b.getD 6 0 * 2 ^ 8 + b.getD 7 0

/-- The tail of `Scanner.Next` once the full header has been read: resolve a
zero size against the end of the stream, record the entry, seek past the box
data and update the recorded position. -/
def scanFinish (s : Scanner) (boxStart size : Int) (headerSize : Nat) (cur : Int)
    (t : List Nat) : Bool × Scanner :=
  let size' := if size = 0 then (s.data.length : Int) - boxStart else size
  let dataSize := size' - (headerSize : Int)
  let cur' := if dataSize > 0 then cur + dataSize else cur
  (true, { s with
    cur := cur'
    pos := boxStart + size'
    entry := ⟨t, size', boxStart, headerSize⟩ })

/-- `Scanner.Next`: read the 8-byte header (a short read here is silent end
of stream), read the 8 extra octets when the size field is 1 (a short read
here stores the read error), then finish the step.  `io.ReadFull`'s short
read is modelled by comparing the remaining stream length with the request;
it consumes the remainder of the stream. -/
def scanNext (s : Scanner) : Bool × Scanner :=
  if (s.data.length : Int) - s.cur < 8 then (false, s)
  else if ((u32be (((s.data.drop s.cur.toNat).take 8).take 4) : Int)) = 1 then
    if (s.data.length : Int) - (s.cur + 8) < 8 then
      (false, { s with cur := (s.data.length : Int), err := some .readErr })
    else
      scanFinish s s.pos (i64ofU64 (u64be ((s.data.drop (s.cur + 8).toNat).take 8))) 16
        (s.cur + 16) (((s.data.drop s.cur.toNat).take 8).drop 4)
  else
    scanFinish s s.pos ((u32be (((s.data.drop s.cur.toNat).take 8).take 4) : Int)) 8
      (s.cur + 8) (((s.data.drop s.cur.toNat).take 8).drop 4)

/-- Counterexample to C7 as stated: a stream holding exactly the 8 octets
`00 00 00 01 "moov"` — the size field 1 announces an 8-octet extended size
that the stream cannot supply.  `Next` returns false but the `err()` accessor
reports an error, so this short mid-header read is NOT treated as plain end
of stream. -/
theorem spec_C7_cex :
    (scanNext (Scanner.mk [0, 0, 0, 1, 0x6d, 0x6f, 0x6f, 0x76] 0 0 none default)).1 =
        false ∧
      (scanNext (Scanner.mk [0, 0, 0, 1, 0x6d, 0x6f, 0x6f, 0x76] 0 0 none default)).2.err =
        some .readErr := by
  constructor <;> decide

/-- C7 (amended): a short read of the initial 8-octet header ends iteration
as end of stream — `Next` returns false and the scanner (its `err` included)
is unchanged; but a short read of the 8 extra octets of an extended-size
header stores the read error: `Next` returns false and `err()` reports it. -/
theorem spec_C7 :
    (∀ s : Scanner, (s.data.length : Int) - s.cur < 8 → scanNext s = (false, s)) ∧
      ∀ s : Scanner, (s.data.length : Int) - s.cur ≥ 8 →
        u32be (((s.data.drop s.cur.toNat).take 8).take 4) = 1 →
        (s.data.length : Int) - (s.cur + 8) < 8 →
        (scanNext s).1 = false ∧ (scanNext s).2.err = some .readErr := by
  constructor
  · intro s h
    simp only [scanNext, if_pos h]
  · intro s h1 h2 h3
    have he : scanNext s =
        (false, { s with cur := (s.data.length : Int), err := some .readErr }) := by
      simp only [scanNext, if_neg (by omega : ¬ (s.data.length : Int) - s.cur < 8)]
      rw [if_pos (by rw [h2]; rfl), if_pos h3]
    rw [he]
    exact ⟨rfl, rfl⟩

/-- Witness for C7 at two concrete scanners: a 3-byte stream (short initial
header → silent end of stream) and a 9-byte stream whose extended size is cut
short (stored error). -/
theorem spec_C7_witness :
    scanNext (Scanner.mk [1, 2, 3] 0 0 none default) =
        (false, Scanner.mk [1, 2, 3] 0 0 none default) ∧
      (scanNext (Scanner.mk [0, 0, 0, 1, 0x61, 0x62, 0x63, 0x64, 0xaa] 0 0 none default)).1 =
          false ∧
        (scanNext (Scanner.mk [0, 0, 0, 1, 0x61, 0x62, 0x63, 0x64, 0xaa] 0 0 none
            default)).2.err = some .readErr := by
  refine ⟨spec_C7.1 (Scanner.mk [1, 2, 3] 0 0 none default) (by decide), ?_⟩
  exact spec_C7.2 (Scanner.mk [0, 0, 0, 1, 0x61, 0x62, 0x63, 0x64, 0xaa] 0 0 none default)
    (by decide) (by decide) (by decide)

/-! ### C8: automatic version selection in the typed box writers -/

/-- `math.MaxUint32`. -/
def u32Max : Nat := 2 ^ 32 - 1

/-- `putZeros n`. -/
def zeros (n : Nat) : List Nat := List.replicate n 0

/-- The box bytes produced by `StartFullBox t version flags`, the body
writes, and `EndBox`'s size backpatch: 4-byte size (8 header + 4
version/flags + body), tag, `version<<24 | flags&0xffffff`, body. -/
def fullBoxBytes (tag : List Nat) (version flags : Nat) (body : List Nat) : List Nat :=
  be32 (8 + 4 + body.length) ++ tag ++
    be32 (version % 256 * 2 ^ 24 + flags % 2 ^ 24) ++ body

/-- The ASCII bytes of `"mvhd"`. -/
def mvhdTag : List Nat := [0x6d, 0x76, 0x68, 0x64]
/-- The ASCII bytes of `"tkhd"`. -/
def tkhdTag : List Nat := [0x74, 0x6b, 0x68, 0x64]
/-- The ASCII bytes of `"mdhd"`. -/
def mdhdTag : List Nat := [0x6d, 0x64, 0x68, 0x64]
/-- The ASCII bytes of `"mehd"`. -/
def mehdTag : List Nat := [0x6d, 0x65, 0x68, 0x64]
/-- The ASCII bytes of `"elst"`. -/
def elstTag : List Nat := [0x65, 0x6c, 0x73, 0x74]

/-- The identity transformation matrix written by `WriteMvhd`/`WriteTkhd`. -/
def identityMatrix : List Nat :=
  be32 0x00010000 ++ zeros 4 ++ zeros 4 ++ zeros 4 ++ be32 0x00010000 ++
    zeros 4 ++ zeros 4 ++ zeros 4 ++ be32 0x40000000

/-- The version-independent tail of `WriteMvhd`: rate, volume, reserved,
matrix, predefined, next track id. -/
def mvhdTail (nextTrackId : Nat) : List Nat :=
  be32 0x00010000 ++ be16 0x0100 ++ zeros 10 ++ identityMatrix ++ zeros 24 ++
    be32 nextTrackId

/-- `Writer.WriteMvhd`: version 1 with 64-bit times iff the duration
overflows `uint32`, else version 0 with the 32-bit layout. -/
def writeMvhd (timescale duration nextTrackId : Nat) : List Nat :=
  if duration > u32Max then
    fullBoxBytes mvhdTag 1 0
      (be64 0 ++ be64 0 ++ be32 timescale ++ be64 duration ++ mvhdTail nextTrackId)
  else
    fullBoxBytes mvhdTag 0 0
      (be32 0 ++ be32 0 ++ be32 timescale ++ be32 duration ++ mvhdTail nextTrackId)

/-- The version-independent tail of `WriteTkhd`: reserved, layer, alternate
group, volume, reserved, matrix, width, height. -/
def tkhdTail (width height : Nat) : List Nat :=
  zeros 8 ++ be16 0 ++ be16 0 ++ be16 0 ++ be16 0 ++ identityMatrix ++
    be32 width ++ be32 height

/-- `Writer.WriteTkhd`. -/
def writeTkhd (flags trackId duration width height : Nat) : List Nat :=
  if duration > u32Max then
    fullBoxBytes tkhdTag 1 flags
      (be64 0 ++ be64 0 ++ be32 trackId ++ be32 0 ++ be64 duration ++ tkhdTail width height)
  else
    fullBoxBytes tkhdTag 0 flags
      (be32 0 ++ be32 0 ++ be32 trackId ++ be32 0 ++ be32 duration ++ tkhdTail width height)

/-- `Writer.WriteMdhd`. -/
def writeMdhd (timescale duration language : Nat) : List Nat :=
  if duration > u32Max then
    fullBoxBytes mdhdTag 1 0
      (be64 0 ++ be64 0 ++ be32 timescale ++ be64 duration ++ be16 language ++ be16 0)
  else
    fullBoxBytes mdhdTag 0 0
      (be32 0 ++ be32 0 ++ be32 timescale ++ be32 duration ++ be16 language ++ be16 0)

/-- `Writer.WriteMehd`. -/
def writeMehd (fragmentDuration : Nat) : List Nat :=
  if fragmentDuration > u32Max then fullBoxBytes mehdTag 1 0 (be64 fragmentDuration)
  else fullBoxBytes mehdTag 0 0 (be32 fragmentDuration)

/-- `Writer.WriteTfdt`. -/
def writeTfdt (baseMediaDecodeTime : Nat) : List Nat :=
  if baseMediaDecodeTime > u32Max then fullBoxBytes tfdtTag 1 0 (be64 baseMediaDecodeTime)
  else fullBoxBytes tfdtTag 0 0 (be32 baseMediaDecodeTime)

/-- `bmff.ElstEntry`: `SegmentDuration uint64`, `MediaTime int64`,
`MediaRateInt int16`, `MediaRateFrac int16`. -/
structure ElstEntry where
  segmentDuration : Nat
  mediaTime : Int
  mediaRateInt : Int
  mediaRateFrac : Int
  deriving Repr, DecidableEq, Inhabited

/-- Go's `int64(int32(x))`: the low 32 bits of `x` read back as a signed
32-bit value. -/
def i32trunc (x : Int) : Int :=
  if x % (2 ^ 32 : Int) < 2 ^ 31 then x % (2 ^ 32 : Int) else x % (2 ^ 32 : Int) - 2 ^ 32

/-- Go's `uint16(x)` of a signed 16-bit value. -/
def u16ofInt (x : Int) : Nat := (x % (2 ^ 16 : Int)).toNat

/-- Go's `uint64(x)` of a signed 64-bit value. -/
def u64ofInt (x : Int) : Nat := (x % (2 ^ 64 : Int)).toNat

/-- `WriteElst`'s version probe:
`e.SegmentDuration > uint32Max || e.MediaTime > int64(int32(e.MediaTime))`. -/
def elstNeedsV1 (entries : List ElstEntry) : Bool :=
  entries.any fun e =>
    decide (e.segmentDuration > u32Max) || decide (e.mediaTime > i32trunc e.mediaTime)

/-- `Writer.WriteElst`. -/
def writeElst (entries : List ElstEntry) : List Nat :=
  if elstNeedsV1 entries then
    fullBoxBytes elstTag 1 0
      (be32 entries.length ++
        (entries.map fun e =>
          be64 e.segmentDuration ++ be64 (u64ofInt e.mediaTime) ++
            be16 (u16ofInt e.mediaRateInt) ++ be16 (u16ofInt e.mediaRateFrac)).flatten)
  else
    fullBoxBytes elstTag 0 0
      (be32 entries.length ++
        (entries.map fun e =>
          be32 e.segmentDuration ++ be32 (u32ofInt e.mediaTime) ++
            be16 (u16ofInt e.mediaRateInt) ++ be16 (u16ofInt e.mediaRateFrac)).flatten)

/-- Length of a full box: 8-byte header, 4-byte version/flags word, body. -/
theorem fullBoxBytes_length (tag : List Nat) (v f : Nat) (body : List Nat) :
    (fullBoxBytes tag v f body).length = 4 + tag.length + 4 + body.length := by
  simp [fullBoxBytes, be32]
  omega

/-- Length of one encoded v1 elst entry run. -/
theorem elstV1_flatten_length (es : List ElstEntry) :
    ((es.map fun e =>
        be64 e.segmentDuration ++ be64 (u64ofInt e.mediaTime) ++
          be16 (u16ofInt e.mediaRateInt) ++ be16 (u16ofInt e.mediaRateFrac)).flatten).length =
      20 * es.length := by
  induction es with
  | nil => rfl
  | cons e l ih =>
    simp only [List.map_cons, List.flatten_cons, List.length_append, ih, List.length_cons]
    simp [be64, be16]
    ring

/-- Length of one encoded v0 elst entry run. -/
theorem elstV0_flatten_length (es : List ElstEntry) :
    ((es.map fun e =>
        be32 e.segmentDuration ++ be32 (u32ofInt e.mediaTime) ++
          be16 (u16ofInt e.mediaRateInt) ++ be16 (u16ofInt e.mediaRateFrac)).flatten).length =
      12 * es.length := by
  induction es with
  | nil => rfl
  | cons e l ih =>
    simp only [List.map_cons, List.flatten_cons, List.length_append, ih, List.length_cons]
    simp [be32, be16]
    ring

/-- Counterexample to C8 as stated: a media time of `-(2^31) - 1` does not
fit in 32 signed bits (the widened field overflows), yet `WriteElst` selects
version 0 (`e.MediaTime > int64(int32(e.MediaTime))` only catches positive
overflow), and the 32-bit layout stores the truncated bytes `7f ff ff ff`. -/
theorem spec_C8_cex :
    (writeElst [ElstEntry.mk 0 (-(2 ^ 31) - 1) 0 0])[8]? = some 0 ∧
      (ElstEntry.mk 0 (-(2 ^ 31) - 1) 0 0).mediaTime < -(2 ^ 31) ∧
      ((writeElst [ElstEntry.mk 0 (-(2 ^ 31) - 1) 0 0]).drop 20).take 4 =
        [0x7f, 0xff, 0xff, 0xff] := by
  refine ⟨by decide, by decide, by decide⟩

/-- C8 (amended): `WriteMvhd`, `WriteTkhd`, `WriteMdhd`, `WriteMehd` and
`WriteTfdt` select version 1 (byte 8 of the box) iff the widened duration /
fragment duration / base media decode time exceeds `2^32 - 1`, and otherwise
emit the version-0 32-bit layout (witnessed by the box sizes).  `WriteElst`
selects version 1 iff some entry's segment duration exceeds `2^32 - 1` or its
media time is greater than its own low-32-bit signed truncation — so media
times below `-(2^31)`, though they overflow 32 bits, stay version 0. -/
theorem spec_C8 :
    (∀ t d n : Nat, (writeMvhd t d n)[8]? = some (if d > u32Max then 1 else 0) ∧
      (writeMvhd t d n).length = if d > u32Max then 120 else 108) ∧
    (∀ f t d w h : Nat, (writeTkhd f t d w h)[8]? = some (if d > u32Max then 1 else 0) ∧
      (writeTkhd f t d w h).length = if d > u32Max then 104 else 92) ∧
    (∀ t d l : Nat, (writeMdhd t d l)[8]? = some (if d > u32Max then 1 else 0) ∧
      (writeMdhd t d l).length = if d > u32Max then 44 else 32) ∧
    (∀ d : Nat, (writeMehd d)[8]? = some (if d > u32Max then 1 else 0) ∧
      (writeMehd d).length = if d > u32Max then 20 else 16) ∧
    (∀ d : Nat, (writeTfdt d)[8]? = some (if d > u32Max then 1 else 0) ∧
      (writeTfdt d).length = if d > u32Max then 20 else 16) ∧
    (∀ es : List ElstEntry, (writeElst es)[8]? = some (if elstNeedsV1 es then 1 else 0) ∧
      (writeElst es).length =
        if elstNeedsV1 es then 16 + 20 * es.length else 16 + 12 * es.length) := by
  refine ⟨?_, ?_, ?_, ?_, ?_, ?_⟩
  · intro t d n
    constructor
    · by_cases h : d > u32Max <;> simp only [writeMvhd, h, if_true, if_false] <;> rfl
    · by_cases h : d > u32Max <;>
        simp [writeMvhd, h, fullBoxBytes, be32, be64, be16, mvhdTag, mvhdTail,
          identityMatrix, zeros]
  · intro f t d w h
    constructor
    · by_cases hd : d > u32Max
      · rw [if_pos hd]
        have he : (writeTkhd f t d w h)[8]? =
            some ((1 % 256 * 2 ^ 24 + f % 2 ^ 24) / 2 ^ 24 % 256) := by
          simp only [writeTkhd, if_pos hd]
          rfl
        rw [he]
        congr 1
        omega
      · rw [if_neg hd]
        have he : (writeTkhd f t d w h)[8]? =
            some ((0 % 256 * 2 ^ 24 + f % 2 ^ 24) / 2 ^ 24 % 256) := by
          simp only [writeTkhd, if_neg hd]
          rfl
        rw [he]
        congr 1
        omega
    · by_cases hd : d > u32Max <;>
        simp [writeTkhd, hd, fullBoxBytes, be32, be64, be16, tkhdTag, tkhdTail,
          identityMatrix, zeros]
  · intro t d l
    constructor
    · by_cases h : d > u32Max <;> simp only [writeMdhd, h, if_true, if_false] <;> rfl
    · by_cases h : d > u32Max <;>
        simp [writeMdhd, h, fullBoxBytes, be32, be64, be16, mdhdTag]
  · intro d
    constructor
    · by_cases h : d > u32Max <;> simp only [writeMehd, h, if_true, if_false] <;> rfl
    · by_cases h : d > u32Max <;> simp [writeMehd, h, fullBoxBytes, be32, be64, mehdTag]
  · intro d
    constructor
    · by_cases h : d > u32Max <;> simp only [writeTfdt, h, if_true, if_false] <;> rfl
    · by_cases h : d > u32Max <;> simp [writeTfdt, h, fullBoxBytes, be32, be64, tfdtTag]
  · intro es
    constructor
    · by_cases h : elstNeedsV1 es <;> simp only [writeElst, h, if_true, if_false] <;> rfl
    · by_cases h : elstNeedsV1 es
      · rw [if_pos h]
        simp only [writeElst, h, if_true]
        rw [fullBoxBytes_length]
        simp only [List.length_append, elstV1_flatten_length]
        simp [be32, elstTag]
        omega
      · rw [if_neg h]
        rw [writeElst, if_neg h]
        rw [fullBoxBytes_length]
        simp only [List.length_append, elstV0_flatten_length]
        simp [be32, elstTag]
        omega
